import Mathlib

/-!
Verification development for the `types` Go library, covering the two core
components of the spec: the ordered fan-out/fan-in stream engine
(`chan.go`: `OrderedParallelizeChan`) and the lazy pipeline stage engine
(`cmd.go`: the `Command` type, its builders, execution algorithm, retries,
stdin/environment assembly and accessors).

Concurrency is embedded denotationally: a Go channel that is eventually
closed is modelled as the finite list of items sent on it (`none` models a
nil channel), and each concurrent loop of the source is translated into a
terminating Lean function over those lists, faithful to the order in which
the source's loops send and receive.
-/

set_option autoImplicit false

universe u v

namespace Types

/-! ### Fan-out/fan-in engine (`chan.go`, `OrderedParallelizeChan`)

The distribution goroutine sends input item `i` to worker channel `i % W`
and closes every worker channel when the input is exhausted.  `lane W j l`
is therefore exactly the list of items worker `j` receives: the elements of
`l` whose index is congruent to `j` modulo `W`, in input order. -/

def lane {α : Type u} (W : Nat) : Nat → List α → List α
  | _, [] => []
  | 0, a :: as => a :: lane W (W - 1) as
  | j + 1, _ :: as => lane W j as

/-- The `workerInputs` array after the distribution goroutine has routed
every input item round-robin (source `chan.go` lines 20-30). -/
def distribute {α : Type u} (W : Nat) (l : List α) : List (List α) :=
  (List.range W).map (fun j => lane W j l)

/-- One round of the merge goroutine (source `chan.go` lines 40-57): the
loop's running `index` visits lanes `0, 1, 2, ...` cyclically, so grouping
its iterations into sweeps of `W` consecutive indices visits each lane
exactly once per sweep, in order.  A sweep pulls one value from each still
open lane (`ok` true), and retires a lane (sets it to `none`) when the
receive observes the close (`ok` false). -/
def sweep {β : Type v} : List (Option (List β)) → List β × List (Option (List β))
  | [] => ([], [])
  | none :: ls => ((sweep ls).1, none :: (sweep ls).2)
  | some [] :: ls => ((sweep ls).1, none :: (sweep ls).2)
  | some (b :: bs) :: ls => (b :: (sweep ls).1, some bs :: (sweep ls).2)

/-- Termination measure for the merge loop: a retired lane contributes `0`,
an open lane contributes one more than its remaining length. -/
def laneSize {β : Type v} : Option (List β) → Nat
  | none => 0
  | some l => l.length + 1

/-- The merge goroutine, fuel-indexed: it stops once every lane is retired
(the source's `activeCount > 0` guard), and otherwise performs a sweep and
continues.  Each sweep strictly decreases the total `laneSize` measure, so
any fuel at least that measure computes the loop to completion
(`mergeFuel_congr` below). -/
def mergeFuel {β : Type v} : Nat → List (Option (List β)) → List β
  | 0, _ => []
  | fuel + 1, lanes =>
    if lanes.all Option.isNone then []
    else (sweep lanes).1 ++ mergeFuel fuel (sweep lanes).2

/-- The merge goroutine run to completion: output is everything forwarded
to the result channel, in order. -/
def mergeLoop {β : Type v} (lanes : List (Option (List β))) : List β :=
  mergeFuel ((lanes.map laneSize).sum) lanes

/-- Model of `OrderedParallelizeChan` (source `chan.go` lines 5-60): `none`
models a nil channel; a non-positive worker count is coerced to 1; the
input is distributed round-robin over `W` lanes, each lane is passed once
through `process`, and the lane outputs are merged round-robin. -/
def OrderedParallelizeChan {In : Type u} {Out : Type v}
    (input : Option (List In)) (workers : Int)
    (process : List In → List Out) : Option (List Out) :=
  match input with
  | none => none
  | some l =>
      some (mergeLoop
        (((distribute (if workers < 1 then 1 else workers).toNat l).map process).map some))

/-- Relation between the merge loop's lane state and the unconsumed suffix
of each lane: a lane is either still open holding exactly that suffix, or
retired with an empty suffix. -/
def relLane {β : Type v} (o : Option (List β)) (l : List β) : Prop :=
  o = some l ∨ (o = none ∧ l = [])

/-! ### Pipeline stage engine (`cmd.go`)

`Command` below mirrors the Go struct field by field.  The behaviour of
the external world (what a spawned process writes and whether it fails, on
each retry attempt) is modelled by an oracle `attempts : Nat → ProcAttempt`
carried next to the process name, indexed by how many times this stage has
run its underlying work; a transform function likewise receives its own
invocation count so that stateful (counting) Go closures can be expressed.
`runLog` and `sleepLog` are ghost fields recording each time a stage's
underlying work actually runs (with the stdin and environment handed to
it) and each `time.Sleep` between retries; the Go code has no such fields
but they make "the work ran / never ran" observable in the model. -/

/-- Failure classes of the engine (spec section 7).  `exit` is the
`*exec.ExitError` carrying a decodable wait status; every other class
leaves the stage's exit-code field untouched. -/
inductive Err : Type where
  | exit (code : Int)
  | startFailure
  | authFailure
  | fnFailure (msg : String)
  deriving DecidableEq

/-- Outcome of one run of a stage's external process: captured stdout,
captured stderr, and failure-or-none. -/
structure ProcAttempt where
  stdout : String
  stderr : String
  err : Option Err
  deriving DecidableEq

/-- The stdin actually wired to a child process, tagged by where it came
from so that the precedence among the four sources is observable. -/
inductive ResolvedStdin : Type where
  | empty
  | explicitSrc (s : String)
  | terminal
  | upstream (s : String)
  deriving DecidableEq

/-- Ghost record of one run of a stage's underlying work: a process run
(with the stdin source and assembled child environment, `none` meaning the
inherited environment is passed through untouched) or a transform-function
invocation (with the stdin string it received). -/
inductive RunEvent : Type where
  | procRun (stdin : ResolvedStdin) (env : Option (List String))
  | fnRun (stdin : String)
  deriving DecidableEq

/-- The `Command` struct fields (source `cmd.go` lines 35-72), minus the
`previous` pointer which lives in the `Command` inductive below.  `input`
holds the contents an `io.Reader` stdin source will yield; `hasCtx`,
`cancelAcquired` and `cancelReleased` model the context field plus whether
a cancel function was created for it and whether it was ever invoked. -/
structure StageData where
  cmd : String := ""
  cmdFn : Option (Nat → String → String × String × Option Err) := none
  attempts : Nat → ProcAttempt := fun _ => ⟨"", "", none⟩
  args : List String := []
  interactive : Bool := false
  input : Option String := none
  useSudo : Bool := false
  executed : Bool := false
  stdout : String := ""
  stderr : String := ""
  err : Option Err := none
  hasCtx : Bool := false
  cancelAcquired : Bool := false
  cancelReleased : Bool := false
  dir : String := ""
  env : Option (List (String × String)) := none
  clearEnv : Bool := false
  exitCode : Int := 0
  retryCount : Int := 0
  retryDelay : Int := 0
  runLog : List RunEvent := []
  sleepLog : List Int := []

/-- A pipeline chain: each stage optionally owns an exclusive reference to
its upstream predecessor (the `previous` field). -/
inductive Command : Type where
  | base (d : StageData)
  | piped (prev : Command) (d : StageData)

def Command.data : Command → StageData
  | .base d => d
  | .piped _ d => d

def Command.previous : Command → Option Command
  | .base _ => none
  | .piped p _ => some p

/-- Apply a configuration update to a stage's own data, leaving the
upstream chain alone (Go builder methods mutate only the receiver). -/
def Command.update : Command → (StageData → StageData) → Command
  | .base d, f => .base (f d)
  | .piped p d, f => .piped p (f d)

/-- `Cmd` constructor; the `attempts` oracle models the external process
this stage will spawn. -/
def Cmd (cmd : String) (args : List String) (attempts : Nat → ProcAttempt) : Command :=
  .base { cmd := cmd, args := args, attempts := attempts }

/-- `CmdFn` constructor. -/
def CmdFn (fn : Nat → String → String × String × Option Err) : Command :=
  .base { cmdFn := some fn }

/-- `Pipe`: a fresh process stage whose `previous` is the receiver. -/
def Command.Pipe (c : Command) (cmd : String) (args : List String)
    (attempts : Nat → ProcAttempt) : Command :=
  .piped c { cmd := cmd, args := args, attempts := attempts }

/-- `PipeFn`: a fresh function stage whose `previous` is the receiver. -/
def Command.PipeFn (c : Command) (fn : Nat → String → String × String × Option Err) : Command :=
  .piped c { cmdFn := some fn }

def Command.Interactive (c : Command) : Command :=
  c.update (fun d => { d with interactive := true })

/-- `Input`: sets stdin from a string (a `strings.NewReader`). -/
def Command.Input (c : Command) (s : String) : Command :=
  c.update (fun d => { d with input := some s })

/-- `InputReader`: sets stdin from a reader, modelled by the string of
bytes the reader will yield. -/
def Command.InputReader (c : Command) (contents : String) : Command :=
  c.update (fun d => { d with input := some contents })

def Command.Sudo (c : Command) : Command :=
  c.update (fun d => { d with useSudo := true })

/-- Top-level `Sudo` convenience constructor. -/
def Sudo (cmd : String) (args : List String) (attempts : Nat → ProcAttempt) : Command :=
  (Cmd cmd args attempts).Sudo

def Command.WithContext (c : Command) : Command :=
  c.update (fun d => { d with hasCtx := true })

/-- `WithTimeout` (source lines 265-271): creates a context plus cancel
function and stores only the context; the cancel function is discarded
(`_ = cancel`), so it is acquired but never invoked. -/
def Command.WithTimeout (c : Command) (duration : Int) : Command :=
  c.update (fun d => { d with hasCtx := true, cancelAcquired := true, cancelReleased := false })

/-- `WithDeadline` (source lines 280-285): same shape as `WithTimeout`. -/
def Command.WithDeadline (c : Command) (deadline : Int) : Command :=
  c.update (fun d => { d with hasCtx := true, cancelAcquired := true, cancelReleased := false })

def Command.Dir (c : Command) (path : String) : Command :=
  c.update (fun d => { d with dir := path })

/-- Insert-or-replace on the association list modelling the Go
`map[string]string` held in `Command.env`. -/
def upsert (kvs : List (String × String)) (k v : String) : List (String × String) :=
  if kvs.any (fun kv => kv.1 = k) then
    kvs.map (fun kv => if kv.1 = k then (k, v) else kv)
  else kvs ++ [(k, v)]

/-- `Env`: allocates the map if nil, then sets one variable. -/
def Command.Env (c : Command) (k v : String) : Command :=
  c.update (fun d => { d with env := some (upsert (d.env.getD []) k v) })

/-- `EnvMap`: allocates the map if nil, then merges all pairs. -/
def Command.EnvMap (c : Command) (kvs : List (String × String)) : Command :=
  c.update (fun d =>
    { d with env := some (kvs.foldl (fun acc kv => upsert acc kv.1 kv.2) (d.env.getD [])) })

def Command.ClearEnv (c : Command) : Command :=
  c.update (fun d => { d with clearEnv := true })

def Command.Retry (c : Command) (attempts : Int) : Command :=
  c.update (fun d => { d with retryCount := attempts })

def Command.RetryWithBackoff (c : Command) (attempts : Int) (delay : Int) : Command :=
  c.update (fun d => { d with retryCount := attempts, retryDelay := delay })

/-- `String()` (source lines 388-401): a function stage (empty process
name) renders as the fixed placeholder, otherwise the process name and
arguments are joined by single spaces, prefixed by `sudo` when elevated
execution is requested. -/
def Command.render (c : Command) : String :=
  if c.data.cmd = "" then "<function>"
  else
    String.intercalate " "
      ((if c.data.useSudo then ["sudo"] else []) ++ c.data.cmd :: c.data.args)

/-- The ambient system state a pipeline executes against: the inherited
environment `os.Environ()`, whether `sudo -n true` finds an already-valid
credential, and whether the interactive `sudo -v` round-trip succeeds. -/
structure World where
  inherited : List String
  sudoPassive : Bool
  sudoInteractive : Bool

/-- Elevation succeeds when an existing credential is valid or the single
interactive authentication round-trip succeeds (source lines 476-484). -/
def sudoOk (w : World) : Bool := w.sudoPassive || w.sudoInteractive

/-- Child environment assembly (source lines 496-507): clearing gives an
empty base; a non-nil overlay map starts from the inherited environment
unless cleared and appends each `k=v` entry; with no overlay and no
clearing the child inherits everything (`nil`, modelled `none`). -/
def assembleEnv (clearEnv : Bool) (env : Option (List (String × String)))
    (inherited : List String) : Option (List String) :=
  match env with
  | none => if clearEnv then some [] else none
  | some kvs =>
      some ((if clearEnv then [] else inherited) ++ kvs.map (fun kv => kv.1 ++ "=" ++ kv.2))

/-- Stdin wiring for a process stage (source lines 509-525): first an
explicit input source, else the terminal when interactive, else empty —
and then, last, an upstream stage's captured output overwrites whatever
was set. -/
def stdinResolved (d : StageData) (up : Option String) : ResolvedStdin :=
  let base :=
    match d.input with
    | some s => ResolvedStdin.explicitSrc s
    | none => if d.interactive then ResolvedStdin.terminal else ResolvedStdin.empty
  match up with
  | some us => ResolvedStdin.upstream us
  | none => base

/-- One invocation of a transform function: look up the invocation count,
call the function on the resolved stdin, store its three-part result and
log the run. -/
def applyFn (fn : Nat → String → String × String × Option Err) (stdin : String)
    (d : StageData) : StageData :=
  let r := fn d.runLog.length stdin
  { d with stdout := r.1, stderr := r.2.1, err := r.2.2,
           runLog := d.runLog ++ [RunEvent.fnRun stdin] }

/-- One run of a process stage's child process: consult the oracle at the
current run count, log the run with the resolved stdin and assembled
environment, capture stdout/stderr unless interactive, store the failure,
and decode the exit status only from an exit failure (source lines
527-549). -/
def runProc (w : World) (stdin : ResolvedStdin) (d : StageData) : StageData :=
  let a := d.attempts d.runLog.length
  let envA := assembleEnv d.clearEnv d.env w.inherited
  let d1 := { d with runLog := d.runLog ++ [RunEvent.procRun stdin envA] }
  let d2 :=
    if d.interactive then { d1 with err := a.err }
    else { d1 with stdout := a.stdout, stderr := a.stderr, err := a.err }
  match a.err with
  | some (Err.exit code) => { d2 with exitCode := code }
  | _ => d2

/-- `executeOnce` (source lines 443-550), with the upstream stage's
already-resolved result passed in as `up` (`some (stdout, err)` when a
predecessor exists; the predecessor is executed and cached before the
retry loop starts, and being idempotent it yields this same pair on every
attempt).  A function stage resolves stdin from the upstream (propagating
its failure without invoking the function) or else from the input source;
a process stage first performs the elevation check, then propagates an
upstream failure without running, and otherwise runs the child with the
stdin resolved by `stdinResolved`. -/
def executeOnce (w : World) (up : Option (String × Option Err)) (d : StageData) : StageData :=
  match d.cmdFn with
  | some fn =>
    match up with
    | some (_, some e) => { d with err := some e }
    | some (us, none) => applyFn fn us d
    | none =>
      match d.input with
      | some s => applyFn fn s d
      | none => applyFn fn "" d
  | none =>
    if d.useSudo && !(sudoOk w) then { d with err := some Err.authFailure }
    else
      match up with
      | some (_, some e) => { d with err := some e }
      | some (us, none) => runProc w (ResolvedStdin.upstream us) d
      | none => runProc w (stdinResolved d none) d

/-- The retry loop of `execute` (source lines 427-438): run the attempt at
most `rem` more times, sleeping the configured delay before every attempt
after the first (`k` counts attempts already started), stopping as soon as
an attempt completes without failure. -/
def attemptLoop (w : World) (up : Option (String × Option Err)) :
    Nat → Nat → StageData → StageData
  | 0, _, d => d
  | rem + 1, k, d =>
    let d1 :=
      if k > 0 && d.retryDelay > 0 then { d with sleepLog := d.sleepLog ++ [d.retryDelay] }
      else d
    let d2 := executeOnce w up d1
    if d2.err = none then d2 else attemptLoop w up rem (k + 1) d2

/-- `maxAttempts = retryCount + 1`, floored at one attempt (source lines
422-425). -/
def maxAttempts (retryCount : Int) : Int := max (retryCount + 1) 1

/-- Mark the stage executed, then run the retry loop. -/
def runAttempts (w : World) (up : Option (String × Option Err)) (d : StageData) : StageData :=
  attemptLoop w up (maxAttempts d.retryCount).toNat 0 { d with executed := true }

/-- `execute` (source lines 414-441): return the cached stage when the
executed flag is set; otherwise mark executed and run the retry loop.  A
process stage whose elevation check fails never demands its predecessor
(the sudo check precedes upstream resolution in `executeOnce`); in every
other piped case the predecessor is executed (idempotently cached) and its
`StdoutErr()` pair feeds each attempt. -/
def Command.execute : Command → World → Command
  | .base d, w =>
    if d.executed then .base d else .base (runAttempts w none d)
  | .piped p d, w =>
    if d.executed then .piped p d
    else if d.cmdFn.isNone && d.useSudo && !(sudoOk w) then
      .piped p (runAttempts w none d)
    else
      let p2 := Command.execute p w
      .piped p2 (runAttempts w (some (p2.data.stdout, p2.data.err)) d)

/-- `Run()`. -/
def Command.Run (c : Command) (w : World) : Command := c.execute w

/-- `Stdout()`. -/
def Command.Stdout (c : Command) (w : World) : String := (c.execute w).data.stdout

/-- `Stderr()`. -/
def Command.Stderr (c : Command) (w : World) : String := (c.execute w).data.stderr

/-- `Error()`. -/
def Command.Error (c : Command) (w : World) : Option Err := (c.execute w).data.err

/-- `StdoutErr()`. -/
def Command.StdoutErr (c : Command) (w : World) : String × Option Err :=
  (c.Stdout w, c.Error w)

/-- `StderrErr()`. -/
def Command.StderrErr (c : Command) (w : World) : String × Option Err :=
  (c.Stderr w, c.Error w)

/-- `StdoutStderr()`. -/
def Command.StdoutStderr (c : Command) (w : World) : String :=
  c.Stdout w ++ c.Stderr w

/-- `ExitCode()`. -/
def Command.ExitCode (c : Command) (w : World) : Int := (c.execute w).data.exitCode

/-- `StdoutTrimmed()`. -/
def Command.StdoutTrimmed (c : Command) (w : World) : String := (c.Stdout w).trim

/-! ### Shared concrete fixtures for witnesses and counterexamples -/

/-- A process oracle that always succeeds. -/
def attOk : Nat → ProcAttempt := fun _ => ⟨"ok", "", none⟩

/-- A process oracle that always fails with exit status 1. -/
def attFail : Nat → ProcAttempt := fun _ => ⟨"", "", some (Err.exit 1)⟩

/-- A process oracle that always succeeds writing `y` to stdout. -/
def attEcho : Nat → ProcAttempt := fun _ => ⟨"y", "", none⟩

/-- A process oracle failing with exit status 3 on the first run and
succeeding on every later run. -/
def attFlaky : Nat → ProcAttempt := fun k =>
  if k = 0 then ⟨"", "boom", some (Err.exit 3)⟩ else ⟨"recovered", "", none⟩

/-- A transform function that always fails. -/
def fnBoom : Nat → String → String × String × Option Err :=
  fun _ _ => ("", "", some (Err.fnFailure "bad"))

/-- An identity transform function. -/
def fnId : Nat → String → String × String × Option Err :=
  fun _ s => (s, "", none)

/-- A counting transform function that fails on its first `N - 1`
invocations and succeeds from invocation `N - 1` (0-based) on: it fails
exactly `N - 1` times before succeeding. -/
def failsBefore (N : Nat) : Nat → String → String × String × Option Err :=
  fun k _ => if k + 1 < N then ("", "", some (Err.fnFailure "flaky")) else ("done", "", none)

/-- A world with a non-empty inherited environment and working sudo. -/
def w0 : World := ⟨["HOME=/root", "PATH=/bin"], true, true⟩

/-- A world where both the passive credential check and the interactive
authentication fail. -/
def wNoSudo : World := ⟨["HOME=/root"], false, false⟩

/-- The configuration fields of a stage consulted by `executeOnce`, none
of which the execution algorithm ever changes (builders set them before
the first run); bundled as a tuple so preservation is a single equality. -/
def cfgC (d : StageData) :
    Option (Nat → String → String × String × Option Err) × (Nat → ProcAttempt) ×
      Bool × Option String × Bool × Bool × Option (List (String × String)) × Int × Int :=
  (d.cmdFn, d.attempts, d.useSudo, d.input, d.interactive,
   d.clearEnv, d.env, d.retryCount, d.retryDelay)

/-- The executed flag together with the configuration fields: everything
the retry loop leaves untouched. -/
def cfg (d : StageData) :
    Bool × (Option (Nat → String → String × String × Option Err) × (Nat → ProcAttempt) ×
      Bool × Option String × Bool × Bool × Option (List (String × String)) × Int × Int) :=
  (d.executed, cfgC d)

/-! ### Lemmas on the fan-out/fan-in engine -/

theorem lane_nil {α : Type u} (W j : Nat) : lane W j ([] : List α) = [] := by
  cases j <;> rfl

theorem lane_map {α : Type u} {γ : Type v} (W : Nat) (f : α → γ) :
    ∀ (l : List α) (j : Nat), lane W j (l.map f) = (lane W j l).map f
  | [], j => by cases j <;> simp [lane]
  | a :: as, 0 => by simp [lane, lane_map W f as]
  | _ :: as, j + 1 => by simp [lane, lane_map W f as]

theorem lane_shift {α : Type u} (W : Nat) :
    ∀ (j : Nat) (l : List α), lane W j l = lane W 0 (l.drop j)
  | 0, l => by simp
  | j + 1, [] => by simp [lane]
  | j + 1, _ :: as => by simpa [lane] using lane_shift W j as

theorem head?_lane {α : Type u} (W : Nat) :
    ∀ (l : List α) (j : Nat), (lane W j l).head? = l[j]?
  | [], j => by cases j <;> simp [lane]
  | a :: as, 0 => by simp [lane]
  | _ :: as, j + 1 => by simp [lane, head?_lane W as j]

theorem tail_lane0 {α : Type u} {W : Nat} (hW : 1 ≤ W) :
    ∀ m : List α, (lane W 0 m).tail = lane W 0 (m.drop W)
  | [] => by simp [lane]
  | a :: ms => by
    obtain ⟨V, rfl⟩ : ∃ V, W = V + 1 := ⟨W - 1, by omega⟩
    simpa [lane] using lane_shift (V + 1) V ms

theorem tail_lane {α : Type u} {W : Nat} (hW : 1 ≤ W) (j : Nat) (l : List α) :
    (lane W j l).tail = lane W j (l.drop W) := by
  rw [lane_shift W j l, lane_shift W j (l.drop W), tail_lane0 hW, List.drop_drop,
    List.drop_drop, Nat.add_comm]

theorem filterMap_head_lane {α : Type u} (W : Nat) (l : List α) :
    ∀ n : Nat, (List.range n).filterMap (fun j => (lane W j l).head?) = l.take n
  | 0 => by simp
  | n + 1 => by
    rw [List.range_succ, List.filterMap_append, filterMap_head_lane W l n, List.take_succ]
    cases h : l[n]? <;> simp [List.filterMap_cons, head?_lane, h]

theorem distribute_heads {α : Type u} (W : Nat) (l : List α) :
    (distribute W l).filterMap List.head? = l.take W := by
  unfold distribute
  rw [List.filterMap_map]
  exact filterMap_head_lane W l W

theorem distribute_tails {α : Type u} {W : Nat} (hW : 1 ≤ W) (l : List α) :
    (distribute W l).map List.tail = distribute W (l.drop W) := by
  unfold distribute
  rw [List.map_map]
  exact List.map_congr_left (fun j _ => tail_lane hW j l)

theorem distribute_map {α : Type u} {γ : Type v} (W : Nat) (f : α → γ) (l : List α) :
    distribute W (l.map f) = (distribute W l).map (List.map f) := by
  unfold distribute
  rw [List.map_map]
  exact List.map_congr_left (fun j _ => lane_map W f l j)

theorem sweep_measure {β : Type v} :
    ∀ lanes : List (Option (List β)),
      ((sweep lanes).2.map laneSize).sum ≤ (lanes.map laneSize).sum ∧
      (lanes.all Option.isNone = false →
        ((sweep lanes).2.map laneSize).sum < (lanes.map laneSize).sum)
  | [] => by simp [sweep]
  | none :: ls => by
    have ih := sweep_measure ls
    simp only [sweep, List.map_cons, List.sum_cons, List.all_cons, Option.isNone_none,
      Bool.true_and, laneSize]
    exact ⟨by omega, fun h => by have := ih.2 h; omega⟩
  | some [] :: ls => by
    have ih := sweep_measure ls
    simp only [sweep, List.map_cons, List.sum_cons, laneSize, List.length_nil]
    omega
  | some (b :: bs) :: ls => by
    have ih := sweep_measure ls
    simp only [sweep, List.map_cons, List.sum_cons, laneSize, List.length_cons]
    omega

theorem laneSize_eq_zero {β : Type v} (o : Option (List β)) : laneSize o = 0 ↔ o = none := by
  cases o <;> simp [laneSize]

theorem sum_laneSize_zero {β : Type v} (lanes : List (Option (List β)))
    (h : (lanes.map laneSize).sum = 0) : lanes.all Option.isNone = true := by
  induction lanes with
  | nil => rfl
  | cons o ls ih =>
    simp only [List.map_cons, List.sum_cons] at h
    have h1 : laneSize o = 0 := by omega
    have h2 := ih (by omega)
    simp [List.all_cons, h2, Option.isNone_iff_eq_none, (laneSize_eq_zero o).mp h1]

theorem mergeFuel_congr {β : Type v} :
    ∀ (f1 f2 : Nat) (lanes : List (Option (List β))),
      (lanes.map laneSize).sum ≤ f1 → (lanes.map laneSize).sum ≤ f2 →
      mergeFuel f1 lanes = mergeFuel f2 lanes
  | 0, f2, lanes, h1, _ => by
    have hall := sum_laneSize_zero lanes (by omega)
    cases f2 <;> simp [mergeFuel, hall]
  | f1 + 1, 0, lanes, _, h2 => by
    have hall := sum_laneSize_zero lanes (by omega)
    simp [mergeFuel, hall]
  | f1 + 1, f2 + 1, lanes, h1, h2 => by
    by_cases hall : lanes.all Option.isNone
    · simp [mergeFuel, hall]
    · have hlt := (sweep_measure lanes).2 (by simpa using hall)
      simp only [mergeFuel, hall, if_false]
      rw [mergeFuel_congr f1 f2 (sweep lanes).2 (by omega) (by omega)]

theorem mergeLoop_all_none {β : Type v} (lanes : List (Option (List β)))
    (h : lanes.all Option.isNone = true) : mergeLoop lanes = [] := by
  unfold mergeLoop
  cases (lanes.map laneSize).sum <;> simp [mergeFuel, h]

theorem mergeLoop_step {β : Type v} (lanes : List (Option (List β)))
    (h : lanes.all Option.isNone = false) :
    mergeLoop lanes = (sweep lanes).1 ++ mergeLoop (sweep lanes).2 := by
  have hlt := (sweep_measure lanes).2 h
  have hpos : 1 ≤ (lanes.map laneSize).sum := by omega
  obtain ⟨s, hs⟩ : ∃ s, (lanes.map laneSize).sum = s + 1 :=
    ⟨(lanes.map laneSize).sum - 1, by omega⟩
  unfold mergeLoop
  rw [hs]
  simp only [mergeFuel, h, Bool.false_eq_true, if_false]
  have hle : ((sweep lanes).2.map laneSize).sum ≤ s := by omega
  rw [mergeFuel_congr s (((sweep lanes).2.map laneSize).sum) (sweep lanes).2 hle le_rfl]

theorem sweep_rel {β : Type v} {lanes : List (Option (List β))} {lss : List (List β)}
    (h : List.Forall₂ relLane lanes lss) :
    (sweep lanes).1 = lss.filterMap List.head? ∧
    List.Forall₂ relLane (sweep lanes).2 (lss.map List.tail) ∧
    ((∀ l ∈ lss, l = []) → ∀ o ∈ (sweep lanes).2, o = none) := by
  induction h with
  | nil => exact ⟨rfl, List.Forall₂.nil, by simp [sweep]⟩
  | cons hr hrest ih =>
    rename_i o l lanes1 lss1
    simp only [relLane] at hr
    rcases hr with rfl | ⟨rfl, rfl⟩
    · cases l with
      | nil =>
        refine ⟨by simp [sweep, ih.1], ?_, ?_⟩
        · simpa [sweep, relLane] using
            List.Forall₂.cons (show relLane none [] from Or.inr ⟨rfl, rfl⟩) ih.2.1
        · intro hall o ho
          simp only [sweep, List.mem_cons] at ho
          rcases ho with rfl | ho
          · rfl
          · exact ih.2.2 (fun x hx => hall x (by simp [hx])) o ho
      | cons b bs =>
        refine ⟨by simp [sweep, ih.1], ?_, ?_⟩
        · simpa [sweep, relLane] using
            List.Forall₂.cons (show relLane (some bs) bs from Or.inl rfl) ih.2.1
        · intro hall
          exact absurd (hall (b :: bs) (by simp)) (by simp)
    · refine ⟨by simp [sweep, ih.1], ?_, ?_⟩
      · simpa [sweep, relLane] using
          List.Forall₂.cons (show relLane none [] from Or.inr ⟨rfl, rfl⟩) ih.2.1
      · intro hall o ho
        simp only [sweep, List.mem_cons] at ho
        rcases ho with rfl | ho
        · rfl
        · exact ih.2.2 (fun x hx => hall x (by simp [hx])) o ho

theorem all_none_rel {β : Type v} {lanes : List (Option (List β))} {lss : List (List β)}
    (h : List.Forall₂ relLane lanes lss) (hall : lanes.all Option.isNone = true) :
    ∀ l ∈ lss, l = [] := by
  induction h with
  | nil => simp
  | cons hr hrest ih =>
    rename_i o l lanes1 lss1
    simp only [List.all_cons, Bool.and_eq_true, Option.isNone_iff_eq_none] at hall
    intro x hx
    simp only [List.mem_cons] at hx
    rcases hx with rfl | hx
    · simp only [relLane, hall.1] at hr
      rcases hr with hr | hr
      · exact absurd hr.symm (Option.some_ne_none x)
      · exact hr.2
    · exact ih (by simpa [List.all_eq_true] using hall.2) x hx

theorem rel_map_some {β : Type v} : ∀ lss : List (List β),
    List.Forall₂ relLane (lss.map some) lss
  | [] => List.Forall₂.nil
  | l :: ls => List.Forall₂.cons (Or.inl rfl) (rel_map_some ls)

theorem mergeLoop_rel_nil {β : Type v} {lanes : List (Option (List β))} {lss : List (List β)}
    (h : List.Forall₂ relLane lanes lss) (hl : ∀ l ∈ lss, l = []) : mergeLoop lanes = [] := by
  by_cases hall : lanes.all Option.isNone
  · exact mergeLoop_all_none _ (by simpa using hall)
  · rw [mergeLoop_step _ (by simpa using hall)]
    have hs := sweep_rel h
    have h1 : (sweep lanes).1 = [] := by
      rw [hs.1]
      exact List.filterMap_eq_nil_iff.mpr (fun l hmem => by rw [hl l hmem]; rfl)
    have h2 : mergeLoop (sweep lanes).2 = [] :=
      mergeLoop_all_none _ (List.all_eq_true.mpr fun o ho =>
        Option.isNone_iff_eq_none.mpr (hs.2.2 hl o ho))
    simp [h1, h2]

theorem merge_rel {β : Type v} {W : Nat} (hW : 1 ≤ W) :
    ∀ (n : Nat) (rest : List β) (lanes : List (Option (List β))),
      rest.length ≤ n → List.Forall₂ relLane lanes (distribute W rest) →
      mergeLoop lanes = rest
  | _, [], lanes, _, h =>
      mergeLoop_rel_nil h (by
        intro l hl
        unfold distribute at hl
        simp only [List.mem_map, List.mem_range] at hl
        obtain ⟨j, _, rfl⟩ := hl
        exact lane_nil W j)
  | 0, b :: bs, _, hlen, _ => absurd hlen (by simp)
  | n + 1, b :: bs, lanes, hlen, h => by
    have hne : lanes.all Option.isNone = false := by
      rcases Bool.eq_false_or_eq_true (lanes.all Option.isNone) with hc | hc
      swap
      · exact hc
      · exfalso
        have hmem : lane W 0 (b :: bs) ∈ distribute W (b :: bs) := by
          unfold distribute
          exact List.mem_map_of_mem _ (List.mem_range.mpr (by omega))
        have := all_none_rel h hc _ hmem
        simp [lane] at this
    rw [mergeLoop_step _ hne]
    have hs := sweep_rel h
    have hrel2 : List.Forall₂ relLane (sweep lanes).2 (distribute W ((b :: bs).drop W)) := by
      rw [← distribute_tails hW]
      exact hs.2.1
    rw [hs.1, distribute_heads,
      merge_rel hW n ((b :: bs).drop W) (sweep lanes).2
        (by
          simp only [List.length_drop, List.length_cons]
          simp only [List.length_cons] at hlen
          omega) hrel2]
    exact List.take_append_drop W (b :: bs)

theorem merge_distribute {β : Type v} {W : Nat} (hW : 1 ≤ W) (m : List β) :
    mergeLoop ((distribute W m).map some) = m :=
  merge_rel hW m.length m _ le_rfl (rel_map_some _)

/-- C5: for every worker count `W ≥ 1`, every finite input stream, and
every per-lane stage that emits exactly one output item per input item in
its lane's arrival order (i.e. acts elementwise, as `List.map f`),
`OrderedParallelizeChan` produces the outputs in exactly the original
input order: the result is `l.map f`, so output item `i` equals `f`
applied to input item `i` for every `i`, independent of per-item
processing-time variance (which the denotational model abstracts away). -/
theorem orderedParallelizeChan_preserves_order {In : Type u} {Out : Type v}
    (workers : Int) (hW : 1 ≤ workers) (process : List In → List Out) (f : In → Out)
    (hp : ∀ xs : List In, process xs = xs.map f) (l : List In) :
    OrderedParallelizeChan (some l) workers process = some (l.map f) ∧
    ∀ out : List Out, OrderedParallelizeChan (some l) workers process = some out →
      ∀ (i : Nat) (hi : i < l.length) (ho : i < out.length),
        out.get ⟨i, ho⟩ = f (l.get ⟨i, hi⟩) := by
  have hWn : 1 ≤ (if workers < 1 then 1 else workers).toNat := by
    rw [if_neg (by omega)]
    omega
  have hmain : OrderedParallelizeChan (some l) workers process = some (l.map f) := by
    simp only [OrderedParallelizeChan]
    rw [List.map_congr_left (fun xs _ => hp xs), ← distribute_map, merge_distribute hWn]
  refine ⟨hmain, ?_⟩
  intro out hout i hi ho
  rw [hmain, Option.some.injEq] at hout
  subst hout
  simp [List.get_eq_getElem, List.getElem_map]

/-- Witness for C5 at the spec's own scenario: inputs `1..10`, 5 lanes,
and a doubling per-lane stage yield exactly `[2,4,...,20]` in order. -/
theorem orderedParallelizeChan_preserves_order_witness :
    (1 : Int) ≤ 5 ∧
    (∀ xs : List Nat, List.map (fun x => x * 2) xs = xs.map (fun x => x * 2)) ∧
    OrderedParallelizeChan (some [1, 2, 3, 4, 5, 6, 7, 8, 9, 10]) 5
      (List.map (fun x : Nat => x * 2)) = some [2, 4, 6, 8, 10, 12, 14, 16, 18, 20] := by
  refine ⟨by decide, fun _ => rfl, ?_⟩
  exact ((orderedParallelizeChan_preserves_order 5 (by decide)
    (List.map (fun x : Nat => x * 2)) (fun x => x * 2) (fun _ => rfl)
    [1, 2, 3, 4, 5, 6, 7, 8, 9, 10]).1).trans rfl

/-- C8: a nil (absent) input stream yields a nil output stream, which is
distinct from an empty-but-present one; an already-closed empty input
yields an immediately-closed empty (non-nil) output; and every
non-positive worker count is coerced to 1, so the call behaves exactly as
with a single lane. -/
theorem orderedParallelizeChan_edge_cases {In : Type u} {Out : Type v}
    (workers : Int) (process : List In → List Out) (f : In → Out)
    (input : Option (List In)) (hw : workers ≤ 0) :
    OrderedParallelizeChan (none : Option (List In)) workers process = none ∧
    OrderedParallelizeChan (some ([] : List In)) workers (List.map f) = some ([] : List Out) ∧
    OrderedParallelizeChan input workers process = OrderedParallelizeChan input 1 process := by
  refine ⟨rfl, ?_, ?_⟩
  · simp only [OrderedParallelizeChan]
    rw [mergeLoop_rel_nil (rel_map_some _) ?_]
    intro x hx
    simp only [List.mem_map] at hx
    obtain ⟨lns, hlns, rfl⟩ := hx
    unfold distribute at hlns
    simp only [List.mem_map, List.mem_range] at hlns
    obtain ⟨j, _, rfl⟩ := hlns
    rw [lane_nil]
    rfl
  · cases input with
    | none => rfl
    | some l =>
      simp only [OrderedParallelizeChan]
      rw [if_pos (by omega), if_neg (by omega)]

/-- Witness for C8 at worker count `-5` and input `[7]`. -/
theorem orderedParallelizeChan_edge_cases_witness :
    ((-5 : Int) ≤ 0) ∧
    OrderedParallelizeChan (none : Option (List Nat)) (-5)
      (List.map (fun x : Nat => x + 1)) = none ∧
    OrderedParallelizeChan (some ([] : List Nat)) (-5)
      (List.map (fun x : Nat => x + 1)) = some [] ∧
    OrderedParallelizeChan (some [7]) (-5) (List.map (fun x : Nat => x + 1)) =
      OrderedParallelizeChan (some [7]) 1 (List.map (fun x : Nat => x + 1)) := by
  have h := orderedParallelizeChan_edge_cases (-5) (List.map (fun x : Nat => x + 1))
    (fun x : Nat => x + 1) (some [7]) (by decide)
  exact ⟨by decide, h.1, h.2.1, h.2.2⟩

/-! ### Lemmas on the pipeline stage engine -/

theorem executeOnce_cfg (w : World) (up : Option (String × Option Err)) (d : StageData) :
    cfg (executeOnce w up d) = cfg d := by
  unfold executeOnce applyFn runProc cfg cfgC
  dsimp only
  (repeat' split) <;> rfl

theorem attemptLoop_cfg (w : World) (up : Option (String × Option Err)) :
    ∀ (rem k : Nat) (d : StageData), cfg (attemptLoop w up rem k d) = cfg d
  | 0, _, _ => rfl
  | rem + 1, k, d => by
    simp only [attemptLoop]
    generalize hd1 : (if k > 0 && d.retryDelay > 0 then
        { d with sleepLog := d.sleepLog ++ [d.retryDelay] } else d) = d1
    have hc1 : cfg d1 = cfg d := by rw [← hd1]; split <;> rfl
    have hc2 := (executeOnce_cfg w up d1).trans hc1
    split
    · exact hc2
    · exact (attemptLoop_cfg w up rem (k + 1) _).trans hc2

theorem runAttempts_executed (w : World) (up : Option (String × Option Err)) (d : StageData) :
    (runAttempts w up d).executed = true :=
  congrArg Prod.fst
    (attemptLoop_cfg w up (maxAttempts d.retryCount).toNat 0 { d with executed := true })

theorem execute_executed : ∀ (c : Command) (w : World), (c.execute w).data.executed = true
  | .base d, w => by
    simp only [Command.execute]
    split
    · simpa [Command.data] using ‹d.executed = true›
    · exact runAttempts_executed w none d
  | .piped p d, w => by
    simp only [Command.execute]
    split
    · simpa [Command.data] using ‹d.executed = true›
    · split
      · exact runAttempts_executed w none d
      · exact runAttempts_executed w _ d

theorem execute_cached : ∀ (c : Command) (w : World), c.data.executed = true → c.execute w = c
  | .base d, _, h => by simp [Command.execute, Command.data] at h ⊢; simp [h]
  | .piped p d, _, h => by simp [Command.execute, Command.data] at h ⊢; simp [h]

/-- C2: once a stage's executed flag is set its cached result fields never
change: re-running `execute` on an already-executed stage is the identity,
so every subsequent accessor returns exactly the cached result, no further
run events are appended (the underlying work of one stage is triggered
only during its first logical execution), and an already-executed stage is
returned as-is. -/
theorem command_execute_idempotent (c : Command) (w : World) :
    (c.execute w).data.executed = true ∧
    (c.execute w).execute w = c.execute w ∧
    ((c.execute w).execute w).data.runLog = (c.execute w).data.runLog ∧
    (c.data.executed = true → c.execute w = c) := by
  refine ⟨execute_executed c w, ?_, ?_, execute_cached c w⟩
  · exact execute_cached _ w (execute_executed c w)
  · rw [execute_cached _ w (execute_executed c w)]

/-- Witness for C2 on a concrete, already-executed stage. -/
theorem command_execute_idempotent_witness :
    ((Cmd "echo" ["hi"] attOk).execute w0).data.executed = true ∧
    ((Cmd "echo" ["hi"] attOk).execute w0).execute w0 = (Cmd "echo" ["hi"] attOk).execute w0 := by
  refine ⟨by decide, ?_⟩
  exact (command_execute_idempotent ((Cmd "echo" ["hi"] attOk).execute w0) w0).2.2.2 (by decide)

/-- C9: `String()` renders a process stage as its process name followed by
its arguments joined by single spaces, prefixed by `sudo` exactly when
elevated execution is requested, and renders a function stage (empty
process name) as the fixed placeholder. -/
theorem command_render_spec (name : String) (args : List String)
    (att : Nat → ProcAttempt) (fn : Nat → String → String × String × Option Err)
    (h : name ≠ "") :
    (Cmd name args att).render = String.intercalate " " (name :: args) ∧
    ((Cmd name args att).Sudo).render = String.intercalate " " ("sudo" :: name :: args) ∧
    (Sudo name args att).render = String.intercalate " " ("sudo" :: name :: args) ∧
    (CmdFn fn).render = "<function>" := by
  refine ⟨?_, ?_, ?_, rfl⟩ <;>
    simp [Command.render, Cmd, Command.Sudo, Sudo, Command.update, Command.data, h]

/-- Witness for C9 on `echo hello world`, elevated and not. -/
theorem command_render_spec_witness :
    ("echo" : String) ≠ "" ∧
    (Cmd "echo" ["hello", "world"] attOk).render = "echo hello world" ∧
    ((Cmd "echo" ["hello", "world"] attOk).Sudo).render = "sudo echo hello world" ∧
    (CmdFn fnId).render = "<function>" := by
  have h := command_render_spec "echo" ["hello", "world"] attOk fnId (by decide)
  exact ⟨by decide, h.1.trans rfl, h.2.1.trans rfl, h.2.2.2⟩

/-- C7: clearing the environment then setting `A=1` and `B=2` hands the
child exactly those two variables — the logged run event carries the
assembled environment `["A=1", "B=2"]` even though the world's inherited
environment is non-empty — and conversely, without `ClearEnv` a non-nil
overlay is appended on top of the full inherited environment. -/
theorem command_env_isolation :
    (((((Cmd "env" [] attOk).ClearEnv).Env "A" "1").Env "B" "2").execute w0).data.runLog =
      [RunEvent.procRun ResolvedStdin.empty (some ["A=1", "B=2"])] ∧
    (∀ s : String, s ∈ (["A=1", "B=2"] : List String) ↔ (s = "A=1" ∨ s = "B=2")) ∧
    (∀ (inherited : List String) (kvs : List (String × String)),
      assembleEnv false (some kvs) inherited =
        some (inherited ++ kvs.map (fun kv => kv.1 ++ "=" ++ kv.2))) := by
  refine ⟨by decide, ?_, fun inherited kvs => rfl⟩
  intro s
  simp

/-- C6 (code bug): the `WithTimeout` and `WithDeadline` convenience
constructors acquire a cancellation token but discard its release
function, so after the owning stage finishes — whether it succeeded or
failed — the release function has still never been invoked. -/
theorem withTimeout_withDeadline_never_release :
    (((Cmd "sleep" ["10"] attOk).WithTimeout 5000000000).Run w0).data.cancelAcquired = true ∧
    (((Cmd "sleep" ["10"] attOk).WithTimeout 5000000000).Run w0).data.cancelReleased = false ∧
    (((Cmd "sleep" ["10"] attFail).WithTimeout 5000000000).Run w0).data.cancelReleased = false ∧
    (((Cmd "sleep" ["10"] attOk).WithDeadline 99).Run w0).data.cancelAcquired = true ∧
    (((Cmd "sleep" ["10"] attOk).WithDeadline 99).Run w0).data.cancelReleased = false ∧
    (((Cmd "sleep" ["10"] attFail).WithDeadline 99).Run w0).data.cancelReleased = false := by
  decide

/-- C10 (code bug): a stage with one retry whose first attempt exits with
status 3 and whose second attempt succeeds ends with `Error() = nil` but
`ExitCode() = 3` — the stale exit status of the failed attempt is never
reset, contradicting the claim (and `ExitCode`'s own documentation) that
success yields 0.  The companion conjuncts confirm the remainder of the
claim: transform-function and authentication failures leave the exit code
0 while `Error()` is non-nil. -/
theorem exitCode_stale_after_retried_success :
    ((Cmd "flaky" [] attFlaky).Retry 1).Error w0 = none ∧
    ((Cmd "flaky" [] attFlaky).Retry 1).ExitCode w0 = 3 ∧
    (CmdFn fnBoom).Error w0 = some (Err.fnFailure "bad") ∧
    (CmdFn fnBoom).ExitCode w0 = 0 ∧
    (Sudo "deploy" [] attOk).Error wNoSudo = some Err.authFailure ∧
    (Sudo "deploy" [] attOk).ExitCode wNoSudo = 0 := by
  decide

theorem executeOnce_cfgC (w : World) (up : Option (String × Option Err)) (d : StageData) :
    cfgC (executeOnce w up d) = cfgC d :=
  congrArg Prod.snd (executeOnce_cfg w up d)

theorem cfgC_fields {d1 d2 : StageData} (h : cfgC d1 = cfgC d2) :
    d1.cmdFn = d2.cmdFn ∧ d1.attempts = d2.attempts ∧ d1.useSudo = d2.useSudo ∧
    d1.input = d2.input ∧ d1.interactive = d2.interactive ∧ d1.clearEnv = d2.clearEnv ∧
    d1.env = d2.env ∧ d1.retryCount = d2.retryCount ∧ d1.retryDelay = d2.retryDelay := by
  simp only [cfgC, Prod.mk.injEq] at h
  exact h

/-- When every attempt merely records the fixed failure `e0` (a propagated
upstream failure, or a failed elevation check), the retry loop leaves the
run log and the captured output untouched and ends with that failure. -/
theorem attemptLoop_fail_inv (w : World) (up : Option (String × Option Err)) (e0 : Err)
    (d0 : StageData)
    (hstep : ∀ d1 : StageData, cfgC d1 = cfgC d0 →
      executeOnce w up d1 = { d1 with err := some e0 }) :
    ∀ (rem k : Nat) (d : StageData), cfgC d = cfgC d0 →
      (attemptLoop w up rem k d).runLog = d.runLog ∧
      (attemptLoop w up rem k d).stdout = d.stdout ∧
      (1 ≤ rem → (attemptLoop w up rem k d).err = some e0)
  | 0, _, _, _ => ⟨rfl, rfl, fun h => absurd h (by omega)⟩
  | rem + 1, k, d, hcfg => by
    simp only [attemptLoop]
    generalize hd1 : (if k > 0 && d.retryDelay > 0 then
        { d with sleepLog := d.sleepLog ++ [d.retryDelay] } else d) = d1
    have hc0 : cfgC d1 = cfgC d0 := by rw [← hd1]; split <;> exact hcfg
    have hrl : d1.runLog = d.runLog := by rw [← hd1]; split <;> rfl
    have hso : d1.stdout = d.stdout := by rw [← hd1]; split <;> rfl
    rw [hstep d1 hc0, if_neg (by simp)]
    rcases Nat.eq_zero_or_pos rem with rfl | hrem
    · exact ⟨by simp [attemptLoop, hrl], by simp [attemptLoop, hso],
        fun _ => by simp [attemptLoop]⟩
    · have hrec := attemptLoop_fail_inv w up e0 d0 hstep rem (k + 1)
        { d1 with err := some e0 } hc0
      exact ⟨hrec.1.trans hrl, hrec.2.1.trans hso, fun _ => hrec.2.2 hrem⟩

theorem runAttempts_fail (w : World) (up : Option (String × Option Err)) (e0 : Err)
    (d : StageData)
    (hstep : ∀ d1 : StageData, cfgC d1 = cfgC d →
      executeOnce w up d1 = { d1 with err := some e0 }) :
    (runAttempts w up d).runLog = d.runLog ∧
    (runAttempts w up d).stdout = d.stdout ∧
    (runAttempts w up d).err = some e0 := by
  unfold runAttempts
  have h1 : 1 ≤ maxAttempts d.retryCount := le_max_right _ _
  have hM : 1 ≤ (maxAttempts d.retryCount).toNat := by omega
  have h := attemptLoop_fail_inv w up e0 d hstep (maxAttempts d.retryCount).toNat 0
    { d with executed := true } rfl
  exact ⟨h.1, h.2.1, h.2.2 hM⟩

/-- C4 (amended): an upstream failure prevents the downstream stage's own
process or transform function from ever running (no run event is ever
appended), its captured output stays untouched (empty when it started
empty), and a failure is stored and observable via `Error()` at this
stage: the propagated upstream failure — except when the stage requests
elevated execution and authentication fails, in which case the
authentication failure is stored instead (the claim's "stores the
propagated failure" does not hold in that corner). -/
theorem pipeline_fail_fast_amended (w : World) (p : Command) (d : StageData) (e : Err)
    (hx : d.executed = false) (he : (p.execute w).data.err = some e) :
    ((Command.piped p d).execute w).data.runLog = d.runLog ∧
    ((Command.piped p d).execute w).data.stdout = d.stdout ∧
    ((Command.piped p d).execute w).data.err =
      some (if d.cmdFn.isNone && d.useSudo && !(sudoOk w) then Err.authFailure else e) ∧
    (Command.piped p d).Error w =
      some (if d.cmdFn.isNone && d.useSudo && !(sudoOk w) then Err.authFailure else e) := by
  have hmain : ((Command.piped p d).execute w).data.runLog = d.runLog ∧
      ((Command.piped p d).execute w).data.stdout = d.stdout ∧
      ((Command.piped p d).execute w).data.err =
        some (if d.cmdFn.isNone && d.useSudo && !(sudoOk w) then Err.authFailure else e) := by
    simp only [Command.execute, hx, Bool.false_eq_true, if_false]
    by_cases hb : (d.cmdFn.isNone && d.useSudo && !(sudoOk w)) = true
    · rw [if_pos hb, hb]
      have hparts : (d.cmdFn = none ∧ d.useSudo = true) ∧ sudoOk w = false := by
        simpa [Bool.and_eq_true] using hb
      have hstep : ∀ d1 : StageData, cfgC d1 = cfgC d →
          executeOnce w none d1 = { d1 with err := some Err.authFailure } := by
        intro d1 hc
        obtain ⟨hf, _, hu, _⟩ := cfgC_fields hc
        have hfn : d1.cmdFn = none := hf.trans hparts.1.1
        simp [executeOnce, hfn, hu, hparts.1.2, hparts.2]
      have h := runAttempts_fail w none Err.authFailure d hstep
      exact ⟨h.1, h.2.1, by simpa [Command.data] using h.2.2⟩
    · rw [if_neg hb]
      have hbF : (d.cmdFn.isNone && d.useSudo && !(sudoOk w)) = false := by
        simpa using hb
      have hstep : ∀ d1 : StageData, cfgC d1 = cfgC d →
          executeOnce w (some ((p.execute w).data.stdout, (p.execute w).data.err)) d1 =
            { d1 with err := some e } := by
        intro d1 hc
        obtain ⟨hf, _, hu, _⟩ := cfgC_fields hc
        cases hcf : d1.cmdFn with
        | some fn => simp [executeOnce, hcf, he]
        | none =>
          have hdn : d.cmdFn = none := hf.symm.trans hcf
          have hcond : (d1.useSudo && !(sudoOk w)) = false := by
            rw [hu]
            simpa [hdn] using hbF
          simp [executeOnce, hcf, hcond, he]
      have h := runAttempts_fail w _ e d hstep
      exact ⟨h.1, h.2.1, by simpa [Command.data, hbF] using h.2.2⟩
  exact ⟨hmain.1, hmain.2.1, hmain.2.2, by simpa [Command.Error] using hmain.2.2⟩

/-- C4 counterexample, as stated: a chain whose upstream finished with
failure `exit 1` and whose downstream stage requests elevation against a
world where authentication fails stores the authentication failure — not
the propagated upstream failure — as its own failure value. -/
theorem pipeline_fail_fast_cex :
    ((Cmd "false" [] attFail).execute wNoSudo).data.executed = true ∧
    ((Cmd "false" [] attFail).execute wNoSudo).data.err = some (Err.exit 1) ∧
    ((((Cmd "false" [] attFail).execute wNoSudo).Pipe "deploy" [] attOk).Sudo).Error wNoSudo =
      some Err.authFailure ∧
    some Err.authFailure ≠ some (Err.exit 1) := by
  exact ⟨by decide, by decide, by decide, by decide⟩

theorem runProc_runLog (w : World) (st : ResolvedStdin) (d : StageData) :
    (runProc w st d).runLog =
      d.runLog ++ [RunEvent.procRun st (assembleEnv d.clearEnv d.env w.inherited)] := by
  unfold runProc
  dsimp only
  (repeat' split) <;> rfl

/-- When every attempt of a process stage actually runs the child with the
fixed resolved stdin `st`, the retry loop appends one `procRun` event per
attempt made — at least one — all carrying `st` and the assembled child
environment. -/
theorem attemptLoop_run_events (w : World) (up : Option (String × Option Err))
    (d0 : StageData) (st : ResolvedStdin)
    (hrun : ∀ d1 : StageData, cfgC d1 = cfgC d0 → executeOnce w up d1 = runProc w st d1) :
    ∀ (rem k : Nat) (d : StageData), cfgC d = cfgC d0 →
      ∃ n : Nat,
        (attemptLoop w up rem k d).runLog = d.runLog ++ List.replicate n
          (RunEvent.procRun st (assembleEnv d0.clearEnv d0.env w.inherited)) ∧
        (1 ≤ rem → 1 ≤ n)
  | 0, _, d, _ => ⟨0, by simp [attemptLoop], fun h => absurd h (by omega)⟩
  | rem + 1, k, d, hcfg => by
    simp only [attemptLoop]
    generalize hd1 : (if k > 0 && d.retryDelay > 0 then
        { d with sleepLog := d.sleepLog ++ [d.retryDelay] } else d) = d1
    have hc1 : cfgC d1 = cfgC d0 := by rw [← hd1]; split <;> exact hcfg
    have hrl : d1.runLog = d.runLog := by rw [← hd1]; split <;> rfl
    rw [hrun d1 hc1]
    have hev : (runProc w st d1).runLog = d.runLog ++
        [RunEvent.procRun st (assembleEnv d0.clearEnv d0.env w.inherited)] := by
      rw [runProc_runLog, hrl]
      obtain ⟨_, _, _, _, _, hce, hee, _, _⟩ := cfgC_fields hc1
      rw [hce, hee]
    have hc2 : cfgC (runProc w st d1) = cfgC d0 := by
      rw [← hrun d1 hc1]
      exact (executeOnce_cfgC w up d1).trans hc1
    split
    · exact ⟨1, by simpa using hev, fun _ => le_rfl⟩
    · obtain ⟨n, hn, _⟩ := attemptLoop_run_events w up d0 st hrun rem (k + 1)
        (runProc w st d1) hc2
      refine ⟨n + 1, ?_, fun _ => by omega⟩
      rw [hn, hev, List.append_assoc]
      simp [List.replicate_succ]

theorem runAttempts_run_events (w : World) (up : Option (String × Option Err))
    (d : StageData) (st : ResolvedStdin)
    (hrun : ∀ d1 : StageData, cfgC d1 = cfgC d → executeOnce w up d1 = runProc w st d1) :
    ∃ n : Nat,
      (runAttempts w up d).runLog = d.runLog ++ List.replicate n
        (RunEvent.procRun st (assembleEnv d.clearEnv d.env w.inherited)) ∧ 1 ≤ n := by
  unfold runAttempts
  have h1 : 1 ≤ maxAttempts d.retryCount := le_max_right _ _
  have hM : 1 ≤ (maxAttempts d.retryCount).toNat := by omega
  obtain ⟨n, hn, hpos⟩ := attemptLoop_run_events w up d st hrun
    (maxAttempts d.retryCount).toNat 0 { d with executed := true } rfl
  exact ⟨n, hn, hpos hM⟩

/-- C1 (amended): the stdin precedence the code actually implements is
upstream stage output first — it overwrites any explicitly configured
input source — then the explicit input source, then the real terminal (in
interactive mode), then empty.  Part one: with a successfully resolved
upstream, every run of the child receives the upstream's captured output
as stdin regardless of `input`/`interactive`.  Part two: with no upstream,
every run receives `stdinResolved d none`, which the last three parts
evaluate: the explicit source when one is set, else the terminal when
interactive, else empty. -/
theorem stdin_precedence_amended :
    (∀ (w : World) (p : Command) (d : StageData),
      d.executed = false → d.cmdFn = none → (d.useSudo && !(sudoOk w)) = false →
      (p.execute w).data.err = none →
      ∃ n : Nat, ((Command.piped p d).execute w).data.runLog = d.runLog ++ List.replicate n
          (RunEvent.procRun (ResolvedStdin.upstream ((p.execute w).data.stdout))
            (assembleEnv d.clearEnv d.env w.inherited)) ∧ 1 ≤ n) ∧
    (∀ (w : World) (d : StageData),
      d.executed = false → d.cmdFn = none → (d.useSudo && !(sudoOk w)) = false →
      ∃ n : Nat, ((Command.base d).execute w).data.runLog = d.runLog ++ List.replicate n
          (RunEvent.procRun (stdinResolved d none)
            (assembleEnv d.clearEnv d.env w.inherited)) ∧ 1 ≤ n) ∧
    (∀ (d : StageData) (s : String), d.input = some s →
      stdinResolved d none = ResolvedStdin.explicitSrc s) ∧
    (∀ d : StageData, d.input = none → d.interactive = true →
      stdinResolved d none = ResolvedStdin.terminal) ∧
    (∀ d : StageData, d.input = none → d.interactive = false →
      stdinResolved d none = ResolvedStdin.empty) := by
  refine ⟨?_, ?_, ?_, ?_, ?_⟩
  · intro w p d hx hfn hsudo he
    have hrun : ∀ d1 : StageData, cfgC d1 = cfgC d →
        executeOnce w (some ((p.execute w).data.stdout, (p.execute w).data.err)) d1 =
          runProc w (ResolvedStdin.upstream ((p.execute w).data.stdout)) d1 := by
      intro d1 hc
      obtain ⟨hf, _, hu, _⟩ := cfgC_fields hc
      have hfn1 : d1.cmdFn = none := hf.trans hfn
      have hcond : (d1.useSudo && !(sudoOk w)) = false := by rw [hu]; exact hsudo
      simp [executeOnce, hfn1, hcond, he]
    have hcond2 : (d.cmdFn.isNone && d.useSudo && !(sudoOk w)) = false := by
      simpa [hfn] using hsudo
    simp only [Command.execute, hx, Bool.false_eq_true, if_false, hcond2]
    simpa [Command.data] using runAttempts_run_events w _ d _ hrun
  · intro w d hx hfn hsudo
    have hrun : ∀ d1 : StageData, cfgC d1 = cfgC d →
        executeOnce w none d1 = runProc w (stdinResolved d none) d1 := by
      intro d1 hc
      obtain ⟨hf, _, hu, hi, hint, _⟩ := cfgC_fields hc
      have hfn1 : d1.cmdFn = none := hf.trans hfn
      have hcond : (d1.useSudo && !(sudoOk w)) = false := by rw [hu]; exact hsudo
      have hst : stdinResolved d1 none = stdinResolved d none := by
        unfold stdinResolved
        rw [hi, hint]
      simp [executeOnce, hfn1, hcond, hst]
    simp only [Command.execute, hx, Bool.false_eq_true, if_false]
    simpa [Command.data] using runAttempts_run_events w none d _ hrun
  · intro d s hs
    unfold stdinResolved
    rw [hs]
  · intro d hs hint
    unfold stdinResolved
    rw [hs, hint]
    rfl
  · intro d hs hint
    unfold stdinResolved
    rw [hs, hint]
    rfl

/-- C1 counterexample, as stated: a stage with both an explicit input
source `"x"` and an upstream stage whose output is `"y"` hands the child
the upstream output, not the explicit input — so the explicit input source
does not win over the upstream stage output. -/
theorem stdin_precedence_cex :
    ((((Cmd "echo" [] attEcho).Pipe "cat" [] attOk).Input "x").execute w0).data.runLog =
      [RunEvent.procRun (ResolvedStdin.upstream "y") none] ∧
    (((Cmd "echo" [] attEcho).Pipe "cat" [] attOk).Input "x").data.input = some "x" ∧
    ResolvedStdin.upstream "y" ≠ ResolvedStdin.explicitSrc "x" := by
  exact ⟨by decide, by decide, by decide⟩

/-- Witness for C1 (amended), part one, on the counterexample chain: the
run event carries the upstream output `"y"` as stdin. -/
theorem stdin_precedence_amended_witness :
    ((((Cmd "echo" [] attEcho).Pipe "cat" [] attOk).Input "x").data.executed = false) ∧
    (((Cmd "echo" [] attEcho).execute w0).data.err = none) ∧
    (∃ n : Nat,
      ((((Cmd "echo" [] attEcho).Pipe "cat" [] attOk).Input "x").execute w0).data.runLog =
        (((Cmd "echo" [] attEcho).Pipe "cat" [] attOk).Input "x").data.runLog ++
          List.replicate n (RunEvent.procRun (ResolvedStdin.upstream "y") none) ∧ 1 ≤ n) := by
  refine ⟨by decide, by decide, ?_⟩
  exact stdin_precedence_amended.1 w0 (Cmd "echo" [] attEcho)
    (((Cmd "echo" [] attEcho).Pipe "cat" [] attOk).Input "x").data
    (by decide) rfl (by decide) (by decide)

/-- Witness for C4 (amended) on a concrete two-stage chain whose first
stage fails with exit status 1 and whose second stage is an ordinary
(non-elevated) process stage. -/
theorem pipeline_fail_fast_amended_witness :
    (((Cmd "false" [] attFail).Pipe "cat" [] attOk).data.executed = false) ∧
    (((Cmd "false" [] attFail).execute w0).data.err = some (Err.exit 1)) ∧
    ((((Cmd "false" [] attFail).Pipe "cat" [] attOk).execute w0).data.runLog = [] ∧
      (((Cmd "false" [] attFail).Pipe "cat" [] attOk).execute w0).data.stdout = "" ∧
      ((Cmd "false" [] attFail).Pipe "cat" [] attOk).Error w0 = some (Err.exit 1)) := by
  refine ⟨by decide, by decide, ?_⟩
  have h := pipeline_fail_fast_amended w0 (Cmd "false" [] attFail)
    ((Cmd "false" [] attFail).Pipe "cat" [] attOk).data (Err.exit 1) (by decide) (by decide)
  exact ⟨h.1, h.2.1, h.2.2.2⟩

/-- Behaviour of the retry loop on a function stage whose transform is
`failsBefore N`: starting at invocation count `k` (equal to the current
run-log length) with `rem` attempts available, the loop makes
`min rem (max (N - k) 1)` attempts, ends without failure exactly when
`max (N - k) 1 ≤ rem`, and, when the configured delay is positive, sleeps
it before every attempt after the overall first. -/
theorem attemptLoop_failsBefore (w : World) (N : Nat) (d0 : StageData)
    (hcm : d0.cmdFn = some (failsBefore N)) (hin : d0.input = none) :
    ∀ (rem k : Nat) (d : StageData), cfgC d = cfgC d0 → d.runLog.length = k →
      (attemptLoop w none rem k d).runLog.length = k + min rem (max (N - k) 1) ∧
      (1 ≤ rem → ((attemptLoop w none rem k d).err = none ↔ max (N - k) 1 ≤ rem)) ∧
      (0 < d.retryDelay →
        (attemptLoop w none rem k d).sleepLog = d.sleepLog ++
          List.replicate
            (if k = 0 then min rem (max (N - k) 1) - 1 else min rem (max (N - k) 1))
            d.retryDelay) ∧
      (d.retryDelay ≤ 0 → (attemptLoop w none rem k d).sleepLog = d.sleepLog)
  | 0, k, d, _, hk => by
    refine ⟨by simp [attemptLoop, hk], fun h => absurd h (by omega), ?_, fun _ => rfl⟩
    intro _
    have hz : (if k = 0 then min 0 (max (N - k) 1) - 1 else min 0 (max (N - k) 1)) = 0 := by
      split <;> simp
    rw [hz]
    simp [attemptLoop]
  | rem + 1, k, d, hcfg, hk => by
    simp only [attemptLoop]
    generalize hd1 : (if k > 0 && d.retryDelay > 0 then
        { d with sleepLog := d.sleepLog ++ [d.retryDelay] } else d) = d1
    have hc1 : cfgC d1 = cfgC d := by rw [← hd1]; split <;> rfl
    have hrl1 : d1.runLog = d.runLog := by rw [← hd1]; split <;> rfl
    have hdel1 : d1.retryDelay = d.retryDelay := (cfgC_fields hc1).2.2.2.2.2.2.2.2
    have hsl1 : d1.sleepLog =
        d.sleepLog ++ (if k > 0 && d.retryDelay > 0 then [d.retryDelay] else []) := by
      rw [← hd1]
      split <;> simp
    have hstep : executeOnce w none d1 = applyFn (failsBefore N) "" d1 := by
      have hf1 : d1.cmdFn = some (failsBefore N) :=
        ((cfgC_fields (hc1.trans hcfg)).1).trans hcm
      have hi1 : d1.input = none :=
        ((cfgC_fields (hc1.trans hcfg)).2.2.2.1).trans hin
      simp [executeOnce, hf1, hi1]
    rw [hstep]
    have hlen2 : (applyFn (failsBefore N) "" d1).runLog.length = k + 1 := by
      simp [applyFn, hrl1, hk]
    have herr2 : (applyFn (failsBefore N) "" d1).err = (failsBefore N k "").2.2 := by
      simp [applyFn, hrl1, hk]
    have hsl2 : (applyFn (failsBefore N) "" d1).sleepLog = d1.sleepLog := rfl
    have hdel2 : (applyFn (failsBefore N) "" d1).retryDelay = d.retryDelay := hdel1
    by_cases hbig : k + 1 < N
    · have herr2f : (applyFn (failsBefore N) "" d1).err = some (Err.fnFailure "flaky") := by
        rw [herr2]
        simp [failsBefore, hbig]
      rw [if_neg (by simp [herr2f])]
      have hc2 : cfgC (applyFn (failsBefore N) "" d1) = cfgC d0 := hc1.trans hcfg
      have hrec := attemptLoop_failsBefore w N d0 hcm hin rem (k + 1)
        (applyFn (failsBefore N) "" d1) hc2 hlen2
      refine ⟨?_, ?_, ?_, ?_⟩
      · rw [hrec.1]
        omega
      · intro _
        rcases Nat.eq_zero_or_pos rem with rfl | hrem
        · simp only [attemptLoop, herr2f]
          constructor
          · intro h
            exact absurd h (by simp)
          · intro h
            omega
        · rw [hrec.2.1 hrem]
          omega
      · intro hpos
        have hd2 : 0 < (applyFn (failsBefore N) "" d1).retryDelay := by
          rw [hdel2]
          exact hpos
        rw [hrec.2.2.1 hd2, hsl2, hsl1, hdel2, List.append_assoc]
        congr 1
        rcases Nat.eq_zero_or_pos k with rfl | hkpos
        · rw [if_neg (by simp)]
          rw [List.nil_append, if_neg (by omega), if_pos rfl]
          congr 1
          omega
        · rw [if_pos (by simp [hkpos, hpos]), if_neg (by omega), if_neg (by omega)]
          rw [show [d.retryDelay] = List.replicate 1 d.retryDelay from rfl,
            ← List.replicate_add]
          congr 1
          omega
      · intro hneg
        have hd2 : (applyFn (failsBefore N) "" d1).retryDelay ≤ 0 := by
          rw [hdel2]
          exact hneg
        rw [hrec.2.2.2 hd2, hsl2, hsl1, if_neg (by simp; omega)]
        simp
    · have herr2s : (applyFn (failsBefore N) "" d1).err = none := by
        rw [herr2]
        simp [failsBefore, hbig]
      rw [if_pos herr2s]
      refine ⟨?_, ?_, ?_, ?_⟩
      · rw [hlen2]
        omega
      · intro _
        rw [herr2s]
        simp
        omega
      · intro hpos
        rw [hsl2, hsl1]
        congr 1
        rcases Nat.eq_zero_or_pos k with rfl | hkpos
        · rw [if_neg (by simp), if_pos rfl, show min (rem + 1) (max (N - 0) 1) - 1 = 0 from
            by omega]
          rfl
        · rw [if_pos (by simp [hkpos, hpos]), if_neg (by omega),
            show min (rem + 1) (max (N - k) 1) = 1 from by omega]
          rfl
      · intro hneg
        rw [hsl2, hsl1, if_neg (by simp; omega)]
        simp

/-- C3 (amended): the stage is attempted up to `maxAttempts retryCount =
max (retryCount + 1) 1` times (at least one attempt even for a negative
retry count), the positive configured delay is slept before every attempt
after the first, and attempts stop at the first success.  A stage whose
attempt deterministically fails exactly `N - 1` times before succeeding
therefore ends with no failure if and only if `N ≤ max (retryCount + 1) 1`
— for `retryCount ≥ 0` that is `retryCount ≥ N - 1`, but for a negative
`retryCount` the single guaranteed attempt still succeeds when `N = 1`,
which is the one place the claim's "fails when retryCount < N - 1" is
wrong. -/
theorem retry_convergence_amended (w : World) (N : Nat) (hN : 1 ≤ N) (r delay : Int)
    (hdelay : 0 < delay) :
    ((((CmdFn (failsBefore N)).RetryWithBackoff r delay).execute w).data.err = none ↔
      (N : Int) ≤ maxAttempts r) ∧
    (((CmdFn (failsBefore N)).RetryWithBackoff r delay).execute w).data.runLog.length =
      min (maxAttempts r).toNat N ∧
    (((CmdFn (failsBefore N)).RetryWithBackoff r delay).execute w).data.sleepLog =
      List.replicate (min (maxAttempts r).toNat N - 1) delay := by
  have h1 : 1 ≤ maxAttempts r := le_max_right _ _
  have hM : 1 ≤ (maxAttempts r).toNat := by omega
  have h := attemptLoop_failsBefore w N
    { cmdFn := some (failsBefore N), retryCount := r, retryDelay := delay,
      executed := true } rfl rfl (maxAttempts r).toNat 0
    { cmdFn := some (failsBefore N), retryCount := r, retryDelay := delay,
      executed := true } rfl rfl
  have hmax : max (N - 0) 1 = N := by omega
  rw [hmax] at h
  refine ⟨?_, ?_, ?_⟩
  · simp only [Command.execute, CmdFn, Command.RetryWithBackoff, Command.update,
      runAttempts, Bool.false_eq_true, if_false, Command.data]
    rw [h.2.1 hM]
    omega
  · simp only [Command.execute, CmdFn, Command.RetryWithBackoff, Command.update,
      runAttempts, Bool.false_eq_true, if_false, Command.data]
    rw [h.1]
    omega
  · simp only [Command.execute, CmdFn, Command.RetryWithBackoff, Command.update,
      runAttempts, Bool.false_eq_true, if_false, Command.data]
    rw [h.2.2.1 hdelay]
    simp

/-- C3 counterexample, as stated: with `N = 1` (the attempt fails exactly
zero times before succeeding) and `retryCount = -1 < N - 1 = 0`, the
guaranteed single attempt succeeds, so the stage ends with no failure
although the claim predicts a failure whenever `retryCount < N - 1`. -/
theorem retry_convergence_cex :
    (((CmdFn (failsBefore 1)).Retry (-1)).execute w0).data.err = none ∧
    ((-1 : Int) < (1 : Int) - 1) :=
  ⟨by decide, by decide⟩

/-- Witness for C3 (amended) at `N = 3`, two retries, delay 7. -/
theorem retry_convergence_amended_witness :
    (1 ≤ 3) ∧ ((0 : Int) < 7) ∧
    ((((CmdFn (failsBefore 3)).RetryWithBackoff 2 7).execute w0).data.err = none ↔
      ((3 : Nat) : Int) ≤ maxAttempts 2) ∧
    (((CmdFn (failsBefore 3)).RetryWithBackoff 2 7).execute w0).data.runLog.length =
      min (maxAttempts 2).toNat 3 ∧
    (((CmdFn (failsBefore 3)).RetryWithBackoff 2 7).execute w0).data.sleepLog =
      List.replicate (min (maxAttempts 2).toNat 3 - 1) 7 := by
  have h := retry_convergence_amended w0 3 (by decide) 2 7 (by decide)
  exact ⟨by decide, by decide, h.1, h.2.1, h.2.2⟩

end Types
